import Mathlib

/-
Shallow embedding of the Murdermystery game server core (src/server.js).

JavaScript `Map`s are modelled as association lists in insertion order
(`mapGet` / `mapSet` mirror `Map.get` / `Map.set`).  Socket emissions are
collected in an output list (`Emit`).  `Math.random`-driven data (the room
code draws, the comparator-shuffled id ordering of `assignRoles`) is passed
in as an explicit parameter.  `setTimeout(() => advance(room.code), ms)` is
recorded as an `Emit.schedule ms code` action: a firing timer re-enters the
system by invoking `advance` with only the room code (no phase information
is captured by the timer).
-/

namespace MM

/-- The six phases of the `PHASES` constant in server.js. -/
inductive Phase where
  | LOBBY
  | NIGHT
  | DAY
  | VOTE
  | RESOLVE
  | END
  deriving DecidableEq, Repr

/-- The four role strings assigned by `assignRoles`. -/
inductive Role where
  | MURDERER
  | DETECTIVE
  | DOCTOR
  | CIVILIAN
  deriving DecidableEq, Repr

/-- One entry of `room.players`: `{ id, name, alive, voteFor? }` (the
`role?` field mentioned in the server.js comment is never written by the
code; roles live only in `room.assignments`). `voteFor = none` models the
JS `undefined`. -/
structure Player where
  id : String
  name : String
  alive : Bool
  voteFor : Option String
  deriving DecidableEq, Repr

/-- `room.nightActions`: optional kill / save / inspect targets. -/
structure NightActions where
  kill : Option String
  save : Option String
  inspect : Option String
  deriving DecidableEq, Repr

/-- The empty night-action scratch `{}`. -/
def NightActions.empty : NightActions := ⟨none, none, none⟩

/-- A room object of the in-memory `rooms` map.  `timersEndsAt` models
`room.timers.endsAt` (absolute ms instant or absent). -/
structure Room where
  code : String
  hostId : String
  phase : Phase
  players : List (String × Player)
  assignments : List (String × Role)
  nightActions : NightActions
  timersEndsAt : Option Nat
  deriving DecidableEq, Repr

/-- `Map.get`: first binding of the key, if any. -/
def mapGet {α : Type} : List (String × α) → String → Option α
  | [], _ => none
  | x :: rest, k => if x.1 = k then some x.2 else mapGet rest k

/-- `Map.set`: overwrite in place if the key is present, else append. -/
def mapSet {α : Type} : List (String × α) → String → α → List (String × α)
  | [], k, v => [(k, v)]
  | x :: rest, k, v => if x.1 = k then (k, v) :: rest else x :: mapSet rest k v

/-- The global `rooms` registry: code to room, insertion order. -/
abbrev Registry : Type := List (String × Room)

/-- One player entry of a `room_state` payload: id, name, alive flag and
vote target (`voteFor ?? null`). -/
structure PublicPlayer where
  id : String
  name : String
  alive : Bool
  voteFor : Option String
  deriving DecidableEq, Repr

/-- The `room_state` payload: `{ code, phase, players }`. -/
structure RoomStatePayload where
  code : String
  phase : Phase
  players : List PublicPlayer
  deriving DecidableEq, Repr

/-- The outbound messages of server.js. `roleAssignment` carries
`assignments.get(id)`, hence an `Option Role`. -/
inductive Msg where
  | systemMessage (s : String)
  | errorMessage (s : String)
  | roomState (p : RoomStatePayload)
  | roleAssignment (r : Option Role)
  | inspectResult (target : String) (alignment : String)
  | roomJoined (code : String) (you : String) (host : Bool)
  | chatMessage (from_ : String) (message : String)
  deriving DecidableEq, Repr

/-- An output action: emit to a room channel, emit to one socket, or a
`setTimeout(() => advance(code), delayMs)` registration. -/
inductive Emit where
  | toRoom (code : String) (m : Msg)
  | toSocket (sid : String) (m : Msg)
  | schedule (delayMs : Nat) (code : String)
  deriving DecidableEq, Repr

/-- The public projection of the players map built by `broadcastState`. -/
def publicPlayers (room : Room) : List PublicPlayer :=
  room.players.map (fun x =>
    { id := x.2.id, name := x.2.name, alive := x.2.alive, voteFor := x.2.voteFor })

/-- `broadcastState(room)`: emit the public projection to the room channel. -/
def broadcastState (room : Room) : Emit :=
  Emit.toRoom room.code
    (Msg.roomState { code := room.code, phase := room.phase, players := publicPlayers room })

/-- The restricted room-code alphabet (no 0, O, 1, I). -/
def code4Chars : List Char := "ABCDEFGHJKLMNPQRSTUVWXYZ23456789".toList

/-- `code4()`: four characters indexed by four random draws
(`Math.floor(Math.random()*chars.length)` yields an index below 32; an
arbitrary natural draw is reduced mod 32). -/
def code4 (d0 d1 d2 d3 : Nat) : String :=
  String.mk [code4Chars.getD (d0 % 32) 'A', code4Chars.getD (d1 % 32) 'A',
             code4Chars.getD (d2 % 32) 'A', code4Chars.getD (d3 % 32) 'A']

/-- The assignments map built by `assignRoles` from the shuffled id list:
first id MURDERER, second DETECTIVE, third DOCTOR, rest CIVILIAN. -/
def mkAssignments : List String → List (String × Role)
  | i0 :: i1 :: i2 :: rest =>
      (i0, Role.MURDERER) :: (i1, Role.DETECTIVE) :: (i2, Role.DOCTOR) ::
        rest.map (fun i => (i, Role.CIVILIAN))
  | _ => []

/-- `assignRoles(room)`.  `ids` is the comparator-shuffled copy of
`[...room.players.keys()]` (the randomness of `.sort(()=>Math.random()-0.5)`
is abstracted as the parameter; it is always some permutation of the keys).
No-op when fewer than 4 ids; otherwise the assignments map is rebuilt and
each id privately receives its own role. -/
def assignRoles (room : Room) (ids : List String) : Room × List Emit :=
  if ids.length < 4 then (room, [])
  else
    let asg := mkAssignments ids
    ({ room with assignments := asg },
     ids.map (fun i => Emit.toSocket i (Msg.roleAssignment (mapGet asg i))))

/-- `setPhase(room, phase, seconds)`: set the phase; when `seconds` is
truthy store `endsAt = now + seconds*1000` and schedule a timer that will
invoke `advance(room.code)`; finally broadcast the new state. -/
def setPhase (room : Room) (phase : Phase) (seconds : Option Nat) (now : Nat) :
    Room × List Emit :=
  let r1 : Room := { room with phase := phase }
  match seconds with
  | some s =>
      if s = 0 then (r1, [broadcastState r1])
      else
        let r2 : Room := { r1 with timersEndsAt := some (now + s * 1000) }
        (r2, [Emit.schedule (s * 1000) room.code, broadcastState r2])
  | none => (r1, [broadcastState r1])

/-- `tally[v] = (tally[v]||0)+1`: bump the count of key `v`, appending a
fresh entry (JS object property insertion order) when absent. -/
def bump : List (String × Nat) → String → List (String × Nat)
  | [], v => [(v, 1)]
  | x :: rest, v => if x.1 = v then (x.1, x.2 + 1) :: rest else x :: bump rest v

/-- The vote tally of `resolveVotes`: one pass over the players map, each
alive player with a truthy `voteFor` bumps that target's count. -/
def voteTally (room : Room) : List (String × Nat) :=
  room.players.foldl
    (fun t x =>
      if x.2.alive then
        match x.2.voteFor with
        | some v => if v = "" then t else bump t v
        | none => t
      else t)
    []

/-- The `max / target / tie` scan of `resolveVotes` over
`Object.entries(tally)`: strictly larger count takes over and clears the
tie flag; an equal count sets the tie flag; a smaller count is ignored. -/
def scanT : List (String × Nat) → Nat × Option String × Bool → Nat × Option String × Bool
  | [], acc => acc
  | x :: rest, (m, tg, ti) =>
      if x.2 > m then scanT rest (x.2, some x.1, false)
      else if x.2 = m then scanT rest (m, tg, true)
      else scanT rest (m, tg, ti)

/-- `resolveVotes(room)`: tally, scan for the strict maximum, then either
announce `no_eject` (no target or tie), eject an alive victim with an
`eject:<name>` announcement, or do nothing (victim absent or dead). -/
def resolveVotes (room : Room) : Room × List Emit :=
  let tally := voteTally room
  let res := scanT tally (0, none, false)
  match res.2.1 with
  | none => (room, [Emit.toRoom room.code (Msg.systemMessage "no_eject")])
  | some t =>
      if res.2.2 then (room, [Emit.toRoom room.code (Msg.systemMessage "no_eject")])
      else
        match mapGet room.players t with
        | some victim =>
            if victim.alive then
              ({ room with players := mapSet room.players t { victim with alive := false } },
               [Emit.toRoom room.code (Msg.systemMessage ("eject:" ++ victim.name))])
            else (room, [])
        | none => (room, [])

/-- `applyNight(room)`: when a truthy kill target exists and is alive,
either a matching save negates the kill (emit `save`) or the target dies
(emit `kill`); otherwise no effect. -/
def applyNight (room : Room) : Room × List Emit :=
  match room.nightActions.kill with
  | none => (room, [])
  | some k =>
      if k = "" then (room, [])
      else
        match mapGet room.players k with
        | none => (room, [])
        | some victim =>
            if victim.alive then
              if room.nightActions.save = some k then
                (room, [Emit.toRoom room.code (Msg.systemMessage "save")])
              else
                ({ room with players := mapSet room.players k { victim with alive := false } },
                 [Emit.toRoom room.code (Msg.systemMessage "kill")])
            else (room, [])

/-- `alivePlayers(r)`: the alive player objects in map order. -/
def alivePlayers (r : Room) : List Player :=
  (r.players.map Prod.snd).filter (fun p => p.alive)

/-- The murderer ids extracted from the assignments map by `checkWin`. -/
def murdererIds (r : Room) : List String :=
  (r.assignments.filter (fun x => decide (x.2 = Role.MURDERER))).map Prod.fst

/-- Alive murderer count of `checkWin`. -/
def aliveM (r : Room) : Nat :=
  ((alivePlayers r).filter (fun p => (murdererIds r).contains p.id)).length

/-- Alive non-murderer count of `checkWin` (`alive.length - aliveM`). -/
def aliveC (r : Room) : Nat :=
  (alivePlayers r).length - aliveM r

/-- `checkWin(room)`: citizens win when no murderer is alive, murderers
win when alive murderers are at least the alive rest, else the game goes
on.  Returns whether the game ended, plus the announcement. -/
def checkWin (r : Room) : Bool × List Emit :=
  if aliveM r = 0 then (true, [Emit.toRoom r.code (Msg.systemMessage "citizens_win")])
  else if aliveM r ≥ aliveC r then
    (true, [Emit.toRoom r.code (Msg.systemMessage "murderer_win")])
  else (false, [])

/-- `advance(code)`: the phase-scheduler step.  Looks the room up by code,
ignores missing rooms and LOBBY, then advances whatever the current phase
is: NIGHT to DAY (75s), DAY to VOTE (35s), VOTE to RESOLVE (3s, vote
resolution after the phase change), RESOLVE to END (if `checkWin`) or back
to NIGHT (35s) with night-action and vote scratch cleared.  This is also
the function a phase timer invokes on expiry. -/
def advance (rooms : Registry) (code : String) (now : Nat) : Registry × List Emit :=
  match mapGet rooms code with
  | none => (rooms, [])
  | some room =>
    if room.phase = Phase.LOBBY then (rooms, [])
    else if room.phase = Phase.NIGHT then
      let pr := setPhase room Phase.DAY (some 75) now
      (mapSet rooms code pr.1, pr.2)
    else if room.phase = Phase.DAY then
      let pr := setPhase room Phase.VOTE (some 35) now
      (mapSet rooms code pr.1, pr.2)
    else if room.phase = Phase.VOTE then
      let pr := setPhase room Phase.RESOLVE (some 3) now
      let vr := resolveVotes pr.1
      (mapSet rooms code vr.1, pr.2 ++ vr.2)
    else if room.phase = Phase.RESOLVE then
      let cw := checkWin room
      if cw.1 then
        let pr := setPhase room Phase.END none now
        (mapSet rooms code pr.1, cw.2 ++ pr.2)
      else
        let r1 : Room := { room with
          nightActions := NightActions.empty,
          players := room.players.map (fun x => (x.1, { x.2 with voteFor := none })) }
        let pr := setPhase r1 Phase.NIGHT (some 35) now
        (mapSet rooms code pr.1, cw.2 ++ pr.2)
    else (rooms, [])

/-- `name?.trim() || fallback`: trimmed name, or the fallback when the
name is absent or trims to the empty string. -/
def jsName (name : Option String) (fallback : String) : String :=
  match name with
  | some s => if s.trim = "" then fallback else s.trim
  | none => fallback

/-- The `create_room` handler: draw a code with `code4()` (the four random
draws are the parameters), build a fresh LOBBY room with the creator as
host and sole player, and `rooms.set(code, room)` it into the registry
(no collision check), then acknowledge and broadcast. -/
def onCreateRoom (rooms : Registry) (socketId : String) (name : Option String)
    (d0 d1 d2 d3 : Nat) : Registry × List Emit :=
  let code := code4 d0 d1 d2 d3
  let room : Room :=
    { code := code, hostId := socketId, phase := Phase.LOBBY,
      players := [(socketId,
        { id := socketId, name := jsName name "HOST", alive := true, voteFor := none })],
      assignments := [], nightActions := NightActions.empty, timersEndsAt := none }
  (mapSet rooms code room,
   [Emit.toSocket socketId (Msg.roomJoined code socketId true), broadcastState room])

/-- The `start_game` handler: silently drop when the room is missing or
the requester is not the host; error `need_4_players` to the requester
when fewer than 4 players; otherwise assign roles (over the shuffled
`ids`) and enter NIGHT (35s). -/
def onStartGame (rooms : Registry) (socketId : String) (code : String)
    (ids : List String) (now : Nat) : Registry × List Emit :=
  match mapGet rooms code with
  | none => (rooms, [])
  | some room =>
    if socketId ≠ room.hostId then (rooms, [])
    else if room.players.length < 4 then
      (rooms, [Emit.toSocket socketId (Msg.errorMessage "need_4_players")])
    else
      let ar := assignRoles room ids
      let pr := setPhase ar.1 Phase.NIGHT (some 35) now
      (mapSet rooms code pr.1, ar.2 ++ pr.2)

/-- The `night_action` handler: requires an existing room in NIGHT, a role
for the submitting socket, and an alive target; then records the target
under the role's slot (murderer kill / doctor save / detective inspect),
the detective additionally receiving an immediate `inspect_result`.  The
submitter's own alive flag is never consulted. -/
def onNightAction (rooms : Registry) (socketId : String) (code : String)
    (target : String) : Registry × List Emit :=
  match mapGet rooms code with
  | none => (rooms, [])
  | some room =>
    if room.phase ≠ Phase.NIGHT then (rooms, [])
    else
      match mapGet room.assignments socketId with
      | none => (rooms, [])
      | some role =>
        if (mapGet room.players target).elim false (fun p => p.alive) then
          let na0 := room.nightActions
          let na1 := if role = Role.MURDERER then { na0 with kill := some target } else na0
          let na2 := if role = Role.DOCTOR then { na1 with save := some target } else na1
          let na3 := if role = Role.DETECTIVE then { na2 with inspect := some target } else na2
          let emits : List Emit :=
            if role = Role.DETECTIVE then
              [Emit.toSocket socketId (Msg.inspectResult target
                (if mapGet room.assignments target = some Role.MURDERER then "evil" else "good"))]
            else []
          (mapSet rooms code { room with nightActions := na3 }, emits)
        else (rooms, [])

/-- The `advance` socket handler: host-only; when the room is in NIGHT,
`applyNight` runs first, then the phase-scheduler `advance` (the timer
path, by contrast, invokes `advance` alone). -/
def onAdvance (rooms : Registry) (socketId : String) (code : String) (now : Nat) :
    Registry × List Emit :=
  match mapGet rooms code with
  | none => (rooms, [])
  | some room =>
    if socketId ≠ room.hostId then (rooms, [])
    else if room.phase = Phase.NIGHT then
      let nr := applyNight room
      let ar := advance (mapSet rooms code nr.1) code now
      (ar.1, nr.2 ++ ar.2)
    else advance rooms code now

/-- Looking up the key just written by `mapSet` yields the new value. -/
theorem mapGet_mapSet {α : Type} (m : List (String × α)) (k : String) (v : α) :
    mapGet (mapSet m k v) k = some v := by
  induction m with
  | nil => simp [mapSet, mapGet]
  | cons x rest ih =>
      by_cases h : x.1 = k
      · simp [mapSet, mapGet, h]
      · simp [mapSet, mapGet, h, ih]

/-! Concrete fixtures used by the theorems below. -/

/-- A host player. -/
def pHost : Player := ⟨"h", "Hank", true, none⟩

/-- The murder victim of the night fixtures. -/
def pVic : Player := ⟨"v", "Vera", true, none⟩

/-- A third player. -/
def pDet : Player := ⟨"a", "Ada", true, none⟩

/-- A fourth player. -/
def pDoc : Player := ⟨"b", "Bo", true, none⟩

/-- A four-player room in NIGHT whose murderer (the host) has submitted a
kill against the alive civilian `v`; no save was submitted. -/
def nightRoom : Room :=
  { code := "RM", hostId := "h", phase := Phase.NIGHT,
    players := [("h", pHost), ("v", pVic), ("a", pDet), ("b", pDoc)],
    assignments := [("h", Role.MURDERER), ("a", Role.DETECTIVE),
                    ("b", Role.DOCTOR), ("v", Role.CIVILIAN)],
    nightActions := { kill := some "v", save := none, inspect := none },
    timersEndsAt := some 35000 }

/-- C1: when the NIGHT timer fires it invokes `advance` directly, which
moves the room to DAY without applying the deferred kill — the victim
stays alive and neither a `kill` nor a `save` outcome is emitted — whereas
the manual host `advance` handler does run `applyNight` first (victim dies,
`kill` emitted).  So night resolution is NOT applied on the timer-triggered
exit from NIGHT, refuting the claim that it runs on either trigger. -/
theorem timer_advance_skips_night_resolution :
    (mapGet (advance [("RM", nightRoom)] "RM" 0).1 "RM").map Room.phase = some Phase.DAY
  ∧ ((mapGet (advance [("RM", nightRoom)] "RM" 0).1 "RM").map
        (fun r => (mapGet r.players "v").map Player.alive)) = some (some true)
  ∧ Emit.toRoom "RM" (Msg.systemMessage "kill") ∉ (advance [("RM", nightRoom)] "RM" 0).2
  ∧ Emit.toRoom "RM" (Msg.systemMessage "save") ∉ (advance [("RM", nightRoom)] "RM" 0).2
  ∧ ((mapGet (onAdvance [("RM", nightRoom)] "h" "RM" 0).1 "RM").map
        (fun r => (mapGet r.players "v").map Player.alive)) = some (some false)
  ∧ Emit.toRoom "RM" (Msg.systemMessage "kill") ∈ (onAdvance [("RM", nightRoom)] "h" "RM" 0).2
  := by decide

/-- C2: after the host manually advances the NIGHT room to DAY, the stale
NIGHT timer (still scheduled) fires and invokes `advance`, which advances
the room again, DAY to VOTE — a state change, not a discarded no-op.  The
timer callback carries only the room code, so `advance` acts on whatever
phase it finds. -/
theorem stale_timer_advances_again :
    (mapGet (onAdvance [("RM", nightRoom)] "h" "RM" 0).1 "RM").map Room.phase = some Phase.DAY
  ∧ (mapGet (advance (onAdvance [("RM", nightRoom)] "h" "RM" 0).1 "RM" 35000).1 "RM").map
        Room.phase = some Phase.VOTE
  ∧ (advance (onAdvance [("RM", nightRoom)] "h" "RM" 0).1 "RM" 35000).1
      ≠ (onAdvance [("RM", nightRoom)] "h" "RM" 0).1
  := by decide

/-- C3: `create_room` uses the drawn code without any collision check: with
the registry already holding a live room coded `AAAA` (hosted by `s1`), a
second creation whose four draws again produce `AAAA` replaces that room —
the registry still has a single entry and its host is now `s2`. -/
theorem create_room_collision_replaces_room :
    code4 0 0 0 0 = "AAAA"
  ∧ (mapGet (onCreateRoom [] "s1" (some "Alice") 0 0 0 0).1 "AAAA").map Room.hostId = some "s1"
  ∧ (mapGet (onCreateRoom (onCreateRoom [] "s1" (some "Alice") 0 0 0 0).1
        "s2" (some "Bob") 0 0 0 0).1 "AAAA").map Room.hostId = some "s2"
  ∧ ((onCreateRoom (onCreateRoom [] "s1" (some "Alice") 0 0 0 0).1
        "s2" (some "Bob") 0 0 0 0).1).length = 1
  := by decide

/-- C6: `applyNight` on a room whose (truthy) kill target is an alive
player: a save equal to the kill leaves the room unchanged and emits
exactly the `save` outcome (in particular never `kill`); any other save
kills the target and emits exactly the `kill` outcome; and with no kill
target submitted nothing changes and nothing is emitted. -/
theorem applyNight_kill_save :
    (∀ (r : Room) (k : String) (p : Player),
      r.nightActions.kill = some k → k ≠ "" →
      mapGet r.players k = some p → p.alive = true →
      ((r.nightActions.save = some k →
          applyNight r = (r, [Emit.toRoom r.code (Msg.systemMessage "save")])) ∧
       (r.nightActions.save ≠ some k →
          applyNight r =
            ({ r with players := mapSet r.players k { p with alive := false } },
             [Emit.toRoom r.code (Msg.systemMessage "kill")]))))
  ∧ (∀ r : Room, r.nightActions.kill = none → applyNight r = (r, [])) := by
  constructor
  · intro r k p hk hke hp ha
    constructor
    · intro hs
      simp [applyNight, hk, hke, hp, ha, hs]
    · intro hs
      simp [applyNight, hk, hke, hp, ha, hs]
  · intro r hk
    simp [applyNight, hk]

/-- C6 witness: on the concrete night fixture (kill `v`, no save) the
target dies and the `kill` outcome is emitted. -/
theorem applyNight_kill_save_witness :
    applyNight nightRoom =
      ({ nightRoom with players := mapSet nightRoom.players "v" { pVic with alive := false } },
       [Emit.toRoom nightRoom.code (Msg.systemMessage "kill")]) :=
  (applyNight_kill_save.1 nightRoom "v" pVic (by decide) (by decide) (by decide)
    (by decide)).2 (by decide)

/-- A two-player LOBBY room (fewer than the four players a game needs). -/
def lobbyRoom : Room :=
  { code := "LB", hostId := "h", phase := Phase.LOBBY,
    players := [("h", pHost), ("v", pVic)],
    assignments := [], nightActions := NightActions.empty, timersEndsAt := none }

/-- C8 counterexample: a `start_game` request for a room with fewer than 4
players coming from a non-host connection is dropped silently — no
`need_4_players` (or any other) emission occurs, refuting the claim that
every such request receives the error. -/
theorem start_game_nonhost_under_four_silent :
    lobbyRoom.players.length < 4
  ∧ "z" ≠ lobbyRoom.hostId
  ∧ onStartGame [("LB", lobbyRoom)] "z" "LB" [] 0 = ([("LB", lobbyRoom)], [])
  := by decide

/-- C8 amended: a `start_game` request from the room's host for a room
with fewer than 4 players leaves the registry (hence the room's phase and
all other room state, including assignments) unchanged and emits exactly
the `need_4_players` error to the requesting connection. -/
theorem start_game_under_four :
    ∀ (rooms : Registry) (socketId code : String) (room : Room) (ids : List String) (now : Nat),
      mapGet rooms code = some room →
      socketId = room.hostId →
      room.players.length < 4 →
      onStartGame rooms socketId code ids now =
        (rooms, [Emit.toSocket socketId (Msg.errorMessage "need_4_players")]) := by
  intro rooms socketId code room ids now hroom hhost hlt
  simp [onStartGame, hroom, hhost, hlt]

/-- C8 witness: the host of the two-player lobby room requests
`start_game` and receives exactly the `need_4_players` error, the registry
unchanged. -/
theorem start_game_under_four_witness :
    onStartGame [("LB", lobbyRoom)] "h" "LB" [] 0 =
      ([("LB", lobbyRoom)], [Emit.toSocket "h" (Msg.errorMessage "need_4_players")]) :=
  start_game_under_four [("LB", lobbyRoom)] "h" "LB" lobbyRoom [] 0 (by decide) (by decide)
    (by decide)

/-- C9: the `room_state` broadcast depends only on the room code, the
phase and the players map (id, name, alive, voteFor): two rooms identical
except for their role assignments and night-action targets produce
identical broadcasts, so roles and night actions never leak through
`broadcastState`. -/
theorem broadcastState_role_independent :
    ∀ r1 r2 : Room, r1.code = r2.code → r1.hostId = r2.hostId → r1.phase = r2.phase →
      r1.players = r2.players → r1.timersEndsAt = r2.timersEndsAt →
      broadcastState r1 = broadcastState r2 := by
  intro r1 r2 hc _ hp hpl _
  simp [broadcastState, publicPlayers, hc, hp, hpl]

/-- C9 witness: the night fixture and its copy with the assignments and
the pending kill erased broadcast the same `room_state`. -/
theorem broadcastState_role_independent_witness :
    broadcastState nightRoom =
      broadcastState { nightRoom with assignments := [], nightActions := NightActions.empty } :=
  broadcastState_role_independent nightRoom
    { nightRoom with assignments := [], nightActions := NightActions.empty }
    rfl rfl rfl rfl rfl

/-- C10: during NIGHT, a `night_action` whose submitter holds a role and
whose target is alive is recorded even though the submitter is dead — the
handler never consults the submitter's alive flag.  The murderer's kill
(doctor's save, detective's inspect) target is stored, and the detective
additionally receives an immediate `inspect_result`. -/
theorem night_action_dead_submitter :
    ∀ (rooms : Registry) (code socketId target : String) (room : Room) (role : Role)
      (p q : Player),
      mapGet rooms code = some room →
      room.phase = Phase.NIGHT →
      mapGet room.assignments socketId = some role →
      mapGet room.players socketId = some p → p.alive = false →
      mapGet room.players target = some q → q.alive = true →
      ∃ room2 : Room,
        mapGet (onNightAction rooms socketId code target).1 code = some room2 ∧
        (role = Role.MURDERER → room2.nightActions.kill = some target
            ∧ (onNightAction rooms socketId code target).2 = []) ∧
        (role = Role.DOCTOR → room2.nightActions.save = some target
            ∧ (onNightAction rooms socketId code target).2 = []) ∧
        (role = Role.DETECTIVE → room2.nightActions.inspect = some target ∧
          (onNightAction rooms socketId code target).2 =
            [Emit.toSocket socketId (Msg.inspectResult target
              (if mapGet room.assignments target = some Role.MURDERER then "evil"
               else "good"))]) := by
  intro rooms code socketId target room role p q hroom hphase hrole hp hpa hq hqa
  have hcond : (mapGet room.players target).elim false (fun x => x.alive) = true := by
    rw [hq]
    exact hqa
  cases role with
  | MURDERER =>
      refine ⟨{ room with nightActions := { room.nightActions with kill := some target } },
        ?_, ?_, ?_, ?_⟩
      · simp [onNightAction, hroom, hphase, hrole, hcond, mapGet_mapSet]
      · intro _
        refine ⟨rfl, ?_⟩
        simp [onNightAction, hroom, hphase, hrole, hcond]
      · intro h
        exact absurd h (by decide)
      · intro h
        exact absurd h (by decide)
  | DOCTOR =>
      refine ⟨{ room with nightActions := { room.nightActions with save := some target } },
        ?_, ?_, ?_, ?_⟩
      · simp [onNightAction, hroom, hphase, hrole, hcond, mapGet_mapSet]
      · intro h
        exact absurd h (by decide)
      · intro _
        refine ⟨rfl, ?_⟩
        simp [onNightAction, hroom, hphase, hrole, hcond]
      · intro h
        exact absurd h (by decide)
  | DETECTIVE =>
      refine ⟨{ room with nightActions := { room.nightActions with inspect := some target } },
        ?_, ?_, ?_, ?_⟩
      · simp [onNightAction, hroom, hphase, hrole, hcond, mapGet_mapSet]
      · intro h
        exact absurd h (by decide)
      · intro h
        exact absurd h (by decide)
      · intro _
        refine ⟨rfl, ?_⟩
        simp [onNightAction, hroom, hphase, hrole, hcond]
  | CIVILIAN =>
      refine ⟨{ room with nightActions := room.nightActions }, ?_, ?_, ?_, ?_⟩
      · simp [onNightAction, hroom, hphase, hrole, hcond, mapGet_mapSet]
      · intro h
        exact absurd h (by decide)
      · intro h
        exact absurd h (by decide)
      · intro h
        exact absurd h (by decide)

/-- The night fixture with the murderer host already dead and no action
submitted yet. -/
def deadMurdererRoom : Room :=
  { nightRoom with
    players := [("h", { pHost with alive := false }), ("v", pVic), ("a", pDet), ("b", pDoc)],
    nightActions := NightActions.empty }

/-- C10 witness: the dead murderer's kill against the alive `v` is
recorded. -/
theorem night_action_dead_submitter_witness :
    ∃ room2 : Room,
      mapGet (onNightAction [("RM", deadMurdererRoom)] "h" "RM" "v").1 "RM" = some room2 ∧
      (Role.MURDERER = Role.MURDERER → room2.nightActions.kill = some "v"
          ∧ (onNightAction [("RM", deadMurdererRoom)] "h" "RM" "v").2 = []) ∧
      (Role.MURDERER = Role.DOCTOR → room2.nightActions.save = some "v"
          ∧ (onNightAction [("RM", deadMurdererRoom)] "h" "RM" "v").2 = []) ∧
      (Role.MURDERER = Role.DETECTIVE → room2.nightActions.inspect = some "v" ∧
        (onNightAction [("RM", deadMurdererRoom)] "h" "RM" "v").2 =
          [Emit.toSocket "h" (Msg.inspectResult "v"
            (if mapGet deadMurdererRoom.assignments "v" = some Role.MURDERER then "evil"
             else "good"))]) :=
  night_action_dead_submitter [("RM", deadMurdererRoom)] "RM" "h" "v" deadMurdererRoom
    Role.MURDERER { pHost with alive := false } pVic (by decide) (by decide) (by decide)
    (by decide) (by decide) (by decide) (by decide)

/-- Mapping `Prod.snd` over the civilian tail of `mkAssignments`. -/
theorem map_pair_civilian_snd (l : List String) :
    (l.map (fun i => (i, Role.CIVILIAN))).map Prod.snd
      = List.replicate l.length Role.CIVILIAN := by
  induction l with
  | nil => rfl
  | cons x xs ih => simp only [List.map_cons, List.length_cons, List.replicate_succ] at ih ⊢; rw [ih]

/-- Mapping `Prod.fst` over the civilian tail of `mkAssignments`. -/
theorem map_pair_civilian_fst (l : List String) :
    (l.map (fun i => (i, Role.CIVILIAN))).map Prod.fst = l := by
  induction l with
  | nil => rfl
  | cons x xs ih => simp only [List.map_cons] at ih ⊢; rw [ih]

/-- C7: for a room of N ≥ 4 players (distinct ids, as JS `Map` keys are),
`assignRoles` over any shuffled ordering of the player ids produces an
assignments map whose values hold exactly one MURDERER, one DETECTIVE,
one DOCTOR and N − 3 CIVILIANs, and whose keys are exactly (a permutation
of, with no duplicates) the room's player ids. -/
theorem assignRoles_counts :
    ∀ (room : Room) (ids : List String),
      ids.Perm (room.players.map Prod.fst) →
      (room.players.map Prod.fst).Nodup →
      4 ≤ room.players.length →
      (((assignRoles room ids).1.assignments.map Prod.snd).count Role.MURDERER = 1
      ∧ ((assignRoles room ids).1.assignments.map Prod.snd).count Role.DETECTIVE = 1
      ∧ ((assignRoles room ids).1.assignments.map Prod.snd).count Role.DOCTOR = 1
      ∧ ((assignRoles room ids).1.assignments.map Prod.snd).count Role.CIVILIAN
          = room.players.length - 3
      ∧ ((assignRoles room ids).1.assignments.map Prod.fst).Perm (room.players.map Prod.fst)
      ∧ ((assignRoles room ids).1.assignments.map Prod.fst).Nodup) := by
  intro room ids hperm hnodup hlen
  have hlen2 : ids.length = room.players.length := by
    have h := hperm.length_eq
    simpa using h
  have h4 : ¬ ids.length < 4 := by omega
  rcases ids with _ | ⟨i0, _ | ⟨i1, _ | ⟨i2, rest⟩⟩⟩
  · simp at h4
  · simp at h4
  · simp at h4
  · have hasg : (assignRoles room (i0 :: i1 :: i2 :: rest)).1.assignments
        = (i0, Role.MURDERER) :: (i1, Role.DETECTIVE) :: (i2, Role.DOCTOR) ::
            rest.map (fun i => (i, Role.CIVILIAN)) := by
      simp only [assignRoles]
      rw [if_neg h4]
      rfl
    have hsnd : ((assignRoles room (i0 :: i1 :: i2 :: rest)).1.assignments.map Prod.snd)
        = Role.MURDERER :: Role.DETECTIVE :: Role.DOCTOR ::
            List.replicate rest.length Role.CIVILIAN := by
      rw [hasg]
      simp only [List.map_cons, map_pair_civilian_snd]
    have hfst : ((assignRoles room (i0 :: i1 :: i2 :: rest)).1.assignments.map Prod.fst)
        = i0 :: i1 :: i2 :: rest := by
      rw [hasg]
      simp only [List.map_cons, map_pair_civilian_fst]
    have hrest : rest.length = room.players.length - 3 := by
      simp at hlen2
      omega
    refine ⟨?_, ?_, ?_, ?_, ?_, ?_⟩
    · rw [hsnd]; simp [List.count_cons, List.count_replicate]
    · rw [hsnd]; simp [List.count_cons, List.count_replicate]
    · rw [hsnd]; simp [List.count_cons, List.count_replicate]
    · rw [hsnd]; simp [List.count_cons, List.count_replicate, hrest]
    · rw [hfst]; exact hperm
    · rw [hfst]; exact hperm.nodup_iff.mpr hnodup

/-- C7 witness: the four-player night fixture with the identity ordering
gets one murderer, one detective, one doctor, one civilian over exactly
its player ids. -/
theorem assignRoles_counts_witness :
    (((assignRoles nightRoom ["h", "v", "a", "b"]).1.assignments.map Prod.snd).count
        Role.MURDERER = 1
    ∧ ((assignRoles nightRoom ["h", "v", "a", "b"]).1.assignments.map Prod.snd).count
        Role.DETECTIVE = 1
    ∧ ((assignRoles nightRoom ["h", "v", "a", "b"]).1.assignments.map Prod.snd).count
        Role.DOCTOR = 1
    ∧ ((assignRoles nightRoom ["h", "v", "a", "b"]).1.assignments.map Prod.snd).count
        Role.CIVILIAN = nightRoom.players.length - 3
    ∧ ((assignRoles nightRoom ["h", "v", "a", "b"]).1.assignments.map Prod.fst).Perm
        (nightRoom.players.map Prod.fst)
    ∧ ((assignRoles nightRoom ["h", "v", "a", "b"]).1.assignments.map Prod.fst).Nodup) :=
  assignRoles_counts nightRoom ["h", "v", "a", "b"] (by decide) (by decide) (by decide)

/-- A RESOLVE room whose only player is the (alive) murderer: one alive
murderer, zero alive non-murderers.  Reachable, e.g. after the three other
players disconnect. -/
def soloMurdererRoom : Room :=
  { code := "R4", hostId := "m", phase := Phase.RESOLVE,
    players := [("m", ⟨"m", "Mo", true, none⟩)],
    assignments := [("m", Role.MURDERER)],
    nightActions := NightActions.empty, timersEndsAt := none }

/-- C4 counterexample: with one alive murderer and zero alive
non-murderers, none of the claim's game-over conditions holds (murderer
count is nonzero, the counts are not both positive, total alive is
nonzero), so the claim's final clause says the game continues — but the
code ends the game: the RESOLVE advance sets phase END and announces
`murderer_win`. -/
theorem checkWin_lone_murderer :
    aliveM soloMurdererRoom = 1 ∧ aliveC soloMurdererRoom = 0
  ∧ (alivePlayers soloMurdererRoom).length = 1
  ∧ (mapGet (advance [("R4", soloMurdererRoom)] "R4" 0).1 "R4").map Room.phase
      = some Phase.END
  ∧ (advance [("R4", soloMurdererRoom)] "R4" 0).2.head?
      = some (Emit.toRoom "R4" (Msg.systemMessage "murderer_win"))
  := by decide

/-- C4 amended: immediately after any resolution (i.e. on the advance out
of RESOLVE): zero alive murderers gives END with `citizens_win` (zero
total alive players included, by the first rule's precedence); a nonzero
murderer count at least the alive non-murderer count — including the case
of zero alive non-murderers — gives END with `murderer_win`; strictly
fewer murderers than the rest continues the game (back to NIGHT, no win
announcement). -/
theorem resolve_phase_win_evaluation :
    ∀ (rooms : Registry) (code : String) (room : Room) (now : Nat),
      mapGet rooms code = some room →
      room.phase = Phase.RESOLVE →
      ((aliveM room = 0 →
          (mapGet (advance rooms code now).1 code).map Room.phase = some Phase.END ∧
          (advance rooms code now).2.head? =
            some (Emit.toRoom room.code (Msg.systemMessage "citizens_win")))
      ∧ ((alivePlayers room).length = 0 →
          (mapGet (advance rooms code now).1 code).map Room.phase = some Phase.END ∧
          (advance rooms code now).2.head? =
            some (Emit.toRoom room.code (Msg.systemMessage "citizens_win")))
      ∧ (aliveM room ≠ 0 → aliveC room ≤ aliveM room →
          (mapGet (advance rooms code now).1 code).map Room.phase = some Phase.END ∧
          (advance rooms code now).2.head? =
            some (Emit.toRoom room.code (Msg.systemMessage "murderer_win")))
      ∧ (aliveM room ≠ 0 → aliveM room < aliveC room →
          (mapGet (advance rooms code now).1 code).map Room.phase = some Phase.NIGHT ∧
          Emit.toRoom room.code (Msg.systemMessage "citizens_win") ∉ (advance rooms code now).2 ∧
          Emit.toRoom room.code (Msg.systemMessage "murderer_win") ∉ (advance rooms code now).2)) := by
  intro rooms code room now hroom hphase
  refine ⟨?_, ?_, ?_, ?_⟩
  · intro h0
    simp [advance, hroom, hphase, checkWin, h0, setPhase, mapGet_mapSet]
  · intro hlen
    have h0 : aliveM room = 0 := by
      have he : alivePlayers room = [] := List.length_eq_zero.mp hlen
      simp [aliveM, he]
    simp [advance, hroom, hphase, checkWin, h0, setPhase, mapGet_mapSet]
  · intro h0 hge
    simp [advance, hroom, hphase, checkWin, h0, ge_iff_le, hge, setPhase, mapGet_mapSet]
  · intro h0 hlt
    have hnge : ¬ aliveC room ≤ aliveM room := not_le.mpr hlt
    simp [advance, hroom, hphase, checkWin, h0, ge_iff_le, hnge, setPhase, mapGet_mapSet,
      broadcastState]

/-- C4 witness: the lone-murderer RESOLVE room takes the murderer_win
branch. -/
theorem resolve_phase_win_evaluation_witness :
    (mapGet (advance [("R4", soloMurdererRoom)] "R4" 0).1 "R4").map Room.phase
        = some Phase.END ∧
    (advance [("R4", soloMurdererRoom)] "R4" 0).2.head? =
      some (Emit.toRoom soloMurdererRoom.code (Msg.systemMessage "murderer_win")) :=
  (resolve_phase_win_evaluation [("R4", soloMurdererRoom)] "R4" soloMurdererRoom 0
    (by decide) (by decide)).2.2.1 (by decide) (by decide)

/-! Lemmas about the tally scan of `resolveVotes`. -/

/-- `scanT` distributes over list append. -/
theorem scanT_append (l1 l2 : List (String × Nat)) (acc : Nat × Option String × Bool) :
    scanT (l1 ++ l2) acc = scanT l2 (scanT l1 acc) := by
  induction l1 generalizing acc with
  | nil => rfl
  | cons x rest ih =>
      rcases acc with ⟨m, tg, ti⟩
      by_cases h1 : x.2 > m
      · simp only [List.cons_append, scanT, if_pos h1]
        exact ih _
      · by_cases h2 : x.2 = m
        · simp only [List.cons_append, scanT, if_neg h1, if_pos h2]
          exact ih _
        · simp only [List.cons_append, scanT, if_neg h1, if_neg h2]
          exact ih _

/-- Entries strictly below the running maximum leave the scan state as is. -/
theorem scanT_id_of_lt (l : List (String × Nat)) (m : Nat) (tg : Option String) (ti : Bool)
    (h : ∀ x ∈ l, x.2 < m) : scanT l (m, tg, ti) = (m, tg, ti) := by
  induction l with
  | nil => rfl
  | cons x rest ih =>
      have hx := h x (List.mem_cons_self x rest)
      have h1 : ¬ x.2 > m := by omega
      have h2 : ¬ x.2 = m := by omega
      simp only [scanT, if_neg h1, if_neg h2]
      exact ih (fun y hy => h y (List.mem_cons_of_mem x hy))

/-- A strict upper bound on the entries and the seed bounds the scan
maximum strictly. -/
theorem scanT_fst_lt (l : List (String × Nat)) (c : Nat) :
    ∀ (m : Nat) (tg : Option String) (ti : Bool), m < c → (∀ x ∈ l, x.2 < c) →
      (scanT l (m, tg, ti)).1 < c := by
  induction l with
  | nil => intro m tg ti hm _; exact hm
  | cons x rest ih =>
      intro m tg ti hm h
      have hx := h x (List.mem_cons_self x rest)
      have hr : ∀ y ∈ rest, y.2 < c := fun y hy => h y (List.mem_cons_of_mem x hy)
      by_cases h1 : x.2 > m
      · simp only [scanT, if_pos h1]
        exact ih _ _ _ hx hr
      · by_cases h2 : x.2 = m
        · simp only [scanT, if_neg h1, if_pos h2]
          exact ih _ _ _ hm hr
        · simp only [scanT, if_neg h1, if_neg h2]
          exact ih _ _ _ hm hr

/-- A weak upper bound on the entries and the seed bounds the scan
maximum. -/
theorem scanT_fst_le (l : List (String × Nat)) (c : Nat) :
    ∀ (m : Nat) (tg : Option String) (ti : Bool), m ≤ c → (∀ x ∈ l, x.2 ≤ c) →
      (scanT l (m, tg, ti)).1 ≤ c := by
  induction l with
  | nil => intro m tg ti hm _; exact hm
  | cons x rest ih =>
      intro m tg ti hm h
      have hx := h x (List.mem_cons_self x rest)
      have hr : ∀ y ∈ rest, y.2 ≤ c := fun y hy => h y (List.mem_cons_of_mem x hy)
      by_cases h1 : x.2 > m
      · simp only [scanT, if_pos h1]
        exact ih _ _ _ hx hr
      · by_cases h2 : x.2 = m
        · simp only [scanT, if_neg h1, if_pos h2]
          exact ih _ _ _ hm hr
        · simp only [scanT, if_neg h1, if_neg h2]
          exact ih _ _ _ hm hr

/-- The scan maximum never decreases below its seed. -/
theorem scanT_fst_mono (l : List (String × Nat)) :
    ∀ (m : Nat) (tg : Option String) (ti : Bool), m ≤ (scanT l (m, tg, ti)).1 := by
  induction l with
  | nil => intro m tg ti; exact le_refl m
  | cons x rest ih =>
      intro m tg ti
      by_cases h1 : x.2 > m
      · simp only [scanT, if_pos h1]
        exact le_trans (le_of_lt h1) (ih _ _ _)
      · by_cases h2 : x.2 = m
        · simp only [scanT, if_neg h1, if_pos h2]
          exact ih _ _ _
        · simp only [scanT, if_neg h1, if_neg h2]
          exact ih _ _ _

/-- Every scanned entry is bounded by the final scan maximum. -/
theorem scanT_fst_ge_mem (l : List (String × Nat)) :
    ∀ (m : Nat) (tg : Option String) (ti : Bool) (y : String × Nat), y ∈ l →
      y.2 ≤ (scanT l (m, tg, ti)).1 := by
  induction l with
  | nil => intro m tg ti y hy; exact absurd hy (List.not_mem_nil y)
  | cons x rest ih =>
      intro m tg ti y hy
      rcases List.mem_cons.mp hy with hyx | hyr
      · subst hyx
        by_cases h1 : y.2 > m
        · simp only [scanT, if_pos h1]
          exact scanT_fst_mono rest _ _ _
        · by_cases h2 : y.2 = m
          · simp only [scanT, if_neg h1, if_pos h2]
            exact h2 ▸ scanT_fst_mono rest _ _ _
          · simp only [scanT, if_neg h1, if_neg h2]
            exact le_trans (by omega) (scanT_fst_mono rest m tg ti)
      · by_cases h1 : x.2 > m
        · simp only [scanT, if_pos h1]
          exact ih _ _ _ y hyr
        · by_cases h2 : x.2 = m
          · simp only [scanT, if_neg h1, if_pos h2]
            exact ih _ _ _ y hyr
          · simp only [scanT, if_neg h1, if_neg h2]
            exact ih _ _ _ y hyr

/-- Once the tie flag is set at the running maximum, entries bounded by
that maximum never clear it. -/
theorem scanT_tie_stable (l : List (String × Nat)) :
    ∀ (m : Nat) (tg : Option String), (∀ x ∈ l, x.2 ≤ m) →
      scanT l (m, tg, true) = (m, tg, true) := by
  induction l with
  | nil => intro m tg _; rfl
  | cons x rest ih =>
      intro m tg h
      have hx := h x (List.mem_cons_self x rest)
      have h1 : ¬ x.2 > m := by omega
      have hr : ∀ y ∈ rest, y.2 ≤ m := fun y hy => h y (List.mem_cons_of_mem x hy)
      by_cases h2 : x.2 = m
      · simp only [scanT, if_neg h1, if_pos h2]
        exact ih _ _ hr
      · simp only [scanT, if_neg h1, if_neg h2]
        exact ih _ _ hr

/-- A unique strictly-maximal entry wins the scan with the tie flag
clear. -/
theorem scanT_strict_max (l1 l2 : List (String × Nat)) (t : String) (c : Nat)
    (h1 : ∀ x ∈ l1, x.2 < c) (h2 : ∀ x ∈ l2, x.2 < c) (hc : 0 < c) :
    scanT (l1 ++ (t, c) :: l2) (0, none, false) = (c, some t, false) := by
  rw [scanT_append]
  rcases hEq : scanT l1 (0, none, false) with ⟨m, tg, ti⟩
  have hm : m < c := by
    have h := scanT_fst_lt l1 c 0 none false hc h1
    rw [hEq] at h
    exact h
  have hgt : (t, c).2 > m := hm
  simp only [scanT, if_pos hgt]
  exact scanT_id_of_lt l2 c (some t) false h2

/-- A maximal count occurring both strictly before and at the split point
leaves the scan with the tie flag set. -/
theorem scanT_tie_true (l1 l2 : List (String × Nat)) (y : String × Nat) (t2 : String)
    (c : Nat) (hy : y ∈ l1) (hyc : y.2 = c)
    (h1 : ∀ x ∈ l1, x.2 ≤ c) (h2 : ∀ x ∈ l2, x.2 ≤ c) :
    (scanT (l1 ++ (t2, c) :: l2) (0, none, false)).2.2 = true := by
  rw [scanT_append]
  rcases hEq : scanT l1 (0, none, false) with ⟨m, tg, ti⟩
  have hle : m ≤ c := by
    have h := scanT_fst_le l1 c 0 none false (Nat.zero_le c) h1
    rw [hEq] at h
    exact h
  have hge : c ≤ m := by
    have h := scanT_fst_ge_mem l1 0 none false y hy
    rw [hEq] at h
    omega
  have hmc : m = c := le_antisymm hle hge
  have hngt : ¬ (t2, c).2 > m := by
    simp only
    omega
  have heq2 : (t2, c).2 = m := by
    simp only
    omega
  simp only [scanT, if_neg hngt, if_pos heq2]
  rw [scanT_tie_stable l2 m tg (fun x hx => by have := h2 x hx; omega)]

/-- `bump` keeps the key set, except that a genuinely new key is appended. -/
theorem bump_keys (l : List (String × Nat)) (v : String) :
    (bump l v).map Prod.fst =
      if v ∈ l.map Prod.fst then l.map Prod.fst else l.map Prod.fst ++ [v] := by
  induction l with
  | nil => simp [bump]
  | cons x rest ih =>
      by_cases h : x.1 = v
      · simp [bump, h]
      · have hcons : (v ∈ x.1 :: rest.map Prod.fst) ↔ v ∈ rest.map Prod.fst := by
          constructor
          · intro hv
            rcases List.mem_cons.mp hv with hv1 | hv1
            · exact absurd hv1.symm h
            · exact hv1
          · exact fun hv => List.mem_cons_of_mem _ hv
        simp only [bump, if_neg h, List.map_cons, ih]
        by_cases h2 : v ∈ rest.map Prod.fst
        · rw [if_pos h2, if_pos (hcons.mpr h2)]
        · rw [if_neg h2, if_neg (fun hv => h2 (hcons.mp hv))]
          rfl

/-- `bump` preserves distinctness of the tally keys. -/
theorem bump_keys_nodup (l : List (String × Nat)) (v : String)
    (h : (l.map Prod.fst).Nodup) : ((bump l v).map Prod.fst).Nodup := by
  rw [bump_keys]
  by_cases h2 : v ∈ l.map Prod.fst
  · rw [if_pos h2]
    exact h
  · rw [if_neg h2]
    simp [List.nodup_append, h, h2]

/-- `bump` keeps every count at least 1 (and writes a new count of 1). -/
theorem bump_pos (l : List (String × Nat)) (v : String)
    (h : ∀ x ∈ l, 1 ≤ x.2) : ∀ x ∈ bump l v, 1 ≤ x.2 := by
  induction l with
  | nil =>
      intro x hx
      simp [bump] at hx
      simp [hx]
  | cons y rest ih =>
      intro x hx
      by_cases hk : y.1 = v
      · simp only [bump, if_pos hk] at hx
        rcases List.mem_cons.mp hx with h1 | h1
        · rw [h1]
          simp
        · exact h x (List.mem_cons_of_mem _ h1)
      · simp only [bump, if_neg hk] at hx
        rcases List.mem_cons.mp hx with h1 | h1
        · rw [h1]
          exact h y (List.mem_cons_self y rest)
        · exact ih (fun z hz => h z (List.mem_cons_of_mem _ hz)) x h1

/-- The tally fold of `resolveVotes` keeps the tally keys distinct. -/
theorem tallyFoldl_nodup (ps : List (String × Player)) :
    ∀ t0 : List (String × Nat), (t0.map Prod.fst).Nodup →
      ((ps.foldl
        (fun t x =>
          if x.2.alive then
            match x.2.voteFor with
            | some v => if v = "" then t else bump t v
            | none => t
          else t)
        t0).map Prod.fst).Nodup := by
  induction ps with
  | nil => intro t0 h; exact h
  | cons x rest ih =>
      intro t0 h
      rw [List.foldl_cons]
      apply ih
      by_cases ha : x.2.alive
      · simp only [ha, if_true]
        cases hv : x.2.voteFor with
        | none => exact h
        | some v =>
            by_cases hve : v = ""
            · simp only [if_pos hve]
              exact h
            · simp only [if_neg hve]
              exact bump_keys_nodup t0 v h
      · simp only [ha]
        simpa using h

/-- The tally fold of `resolveVotes` keeps every count at least 1. -/
theorem tallyFoldl_pos (ps : List (String × Player)) :
    ∀ t0 : List (String × Nat), (∀ x ∈ t0, 1 ≤ x.2) →
      ∀ y ∈ ps.foldl
        (fun t x =>
          if x.2.alive then
            match x.2.voteFor with
            | some v => if v = "" then t else bump t v
            | none => t
          else t)
        t0, 1 ≤ y.2 := by
  induction ps with
  | nil => intro t0 h; exact h
  | cons x rest ih =>
      intro t0 h
      rw [List.foldl_cons]
      apply ih
      by_cases ha : x.2.alive
      · simp only [ha, if_true]
        cases hv : x.2.voteFor with
        | none => exact h
        | some v =>
            by_cases hve : v = ""
            · simp only [if_pos hve]
              exact h
            · simp only [if_neg hve]
              exact bump_pos t0 v h
      · simp only [ha]
        intro y hy
        exact h y (by simpa using hy)

/-- `voteTally` has distinct target keys. -/
theorem voteTally_keys_nodup (r : Room) : ((voteTally r).map Prod.fst).Nodup :=
  tallyFoldl_nodup r.players [] (by simp)

/-- Every `voteTally` count is at least 1. -/
theorem voteTally_pos (r : Room) : ∀ y ∈ voteTally r, 1 ≤ y.2 :=
  tallyFoldl_pos r.players [] (by simp)

/-- A tally entry strictly above every other entry wins the scan of
`resolveVotes` uniquely (tie flag clear). -/
theorem voteTally_strict_max_scan (r : Room) (t : String) (c : Nat)
    (hmem : (t, c) ∈ voteTally r)
    (hmax : ∀ y ∈ voteTally r, y.1 ≠ t → y.2 < c) :
    scanT (voteTally r) (0, none, false) = (c, some t, false) := by
  have hpos : 0 < c := voteTally_pos r (t, c) hmem
  obtain ⟨l1, l2, hsplit⟩ := List.append_of_mem hmem
  have hnd := voteTally_keys_nodup r
  rw [hsplit] at hnd
  simp only [List.map_append, List.map_cons] at hnd
  have hparts := List.nodup_append.mp hnd
  have hnotl1 : t ∉ l1.map Prod.fst := by
    intro hmemt
    exact hparts.2.2 hmemt (List.mem_cons_self _ _)
  have hnotl2 : t ∉ l2.map Prod.fst := (List.nodup_cons.mp hparts.2.1).1
  have h1 : ∀ x ∈ l1, x.2 < c := by
    intro x hx
    apply hmax x (by rw [hsplit]; exact List.mem_append_left _ hx)
    intro hxt
    exact hnotl1 (hxt ▸ List.mem_map_of_mem Prod.fst hx)
  have h2 : ∀ x ∈ l2, x.2 < c := by
    intro x hx
    apply hmax x (by rw [hsplit]; exact List.mem_append_right _ (List.mem_cons_of_mem _ hx))
    intro hxt
    exact hnotl2 (hxt ▸ List.mem_map_of_mem Prod.fst hx)
  rw [hsplit]
  exact scanT_strict_max l1 l2 t c h1 h2 hpos

/-- Two distinct targets sharing the maximal tally leave the scan of
`resolveVotes` with the tie flag set. -/
theorem voteTally_tie_scan (r : Room) (t1 t2 : String) (c : Nat)
    (h1 : (t1, c) ∈ voteTally r) (h2 : (t2, c) ∈ voteTally r) (hne : t1 ≠ t2)
    (hmax : ∀ y ∈ voteTally r, y.2 ≤ c) :
    (scanT (voteTally r) (0, none, false)).2.2 = true := by
  obtain ⟨l1, l2, hsplit⟩ := List.append_of_mem h1
  have hall : ∀ y ∈ l1 ++ (t1, c) :: l2, y.2 ≤ c := by
    rw [← hsplit]
    exact hmax
  have h2' := h2
  rw [hsplit] at h2'
  rcases List.mem_append.mp h2' with hin | hin
  · rw [hsplit]
    exact scanT_tie_true l1 l2 (t2, c) t1 c hin rfl
      (fun x hx => hall x (List.mem_append_left _ hx))
      (fun x hx => hall x (List.mem_append_right _ (List.mem_cons_of_mem _ hx)))
  · rcases List.mem_cons.mp hin with heq | hin2
    · exact absurd (congrArg Prod.fst heq) (by simpa using hne.symm)
    · obtain ⟨a, b, hsplit2⟩ := List.append_of_mem hin2
      have hassoc : l1 ++ (t1, c) :: l2 = (l1 ++ (t1, c) :: a) ++ (t2, c) :: b := by
        rw [hsplit2]
        simp
      rw [hsplit, hassoc]
      rw [hassoc] at hall
      refine scanT_tie_true (l1 ++ (t1, c) :: a) b (t1, c) t2 c
        (List.mem_append_right _ (List.mem_cons_self _ _)) rfl
        (fun x hx => hall x (List.mem_append_left _ hx))
        (fun x hx => hall x (List.mem_append_right _ (List.mem_cons_of_mem _ hx)))

/-- A VOTE room where the two alive voters both target the dead player
`v`: the tally's unique strict maximum names a dead player. -/
def deadTargetRoom : Room :=
  { code := "R5", hostId := "h", phase := Phase.VOTE,
    players := [("h", { pHost with voteFor := some "v" }),
                ("a", { pDet with voteFor := some "v" }),
                ("v", { pVic with alive := false })],
    assignments := [("h", Role.MURDERER), ("a", Role.DETECTIVE), ("v", Role.CIVILIAN)],
    nightActions := NightActions.empty, timersEndsAt := none }

/-- C5 counterexample: the tally has a unique strictly-highest target
(`v` with 2 votes), yet because that target is already dead the code
emits neither an ejection nor a `no_eject` announcement and changes no
state — refuting the claim that exactly one of the two announcements
occurs in every case. -/
theorem resolveVotes_dead_target_silent :
    voteTally deadTargetRoom = [("v", 2)]
  ∧ resolveVotes deadTargetRoom = (deadTargetRoom, [])
  := by decide

/-- C5 amended: on the VOTE→RESOLVE transition `resolveVotes` tallies the
votes of alive players by target id; an empty tally or a top tally shared
by two distinct targets announces `no_eject` with no state change; a
unique strictly-highest target that is an alive player of the room is set
not-alive with an `eject:<name>` announcement; but a unique
strictly-highest target that is dead (or absent from the room) produces
no announcement at all and no state change. -/
theorem resolveVotes_characterization :
    (∀ r : Room, voteTally r = [] →
        resolveVotes r = (r, [Emit.toRoom r.code (Msg.systemMessage "no_eject")]))
  ∧ (∀ (r : Room) (t1 t2 : String) (c : Nat),
        (t1, c) ∈ voteTally r → (t2, c) ∈ voteTally r → t1 ≠ t2 →
        (∀ y ∈ voteTally r, y.2 ≤ c) →
        resolveVotes r = (r, [Emit.toRoom r.code (Msg.systemMessage "no_eject")]))
  ∧ (∀ (r : Room) (t : String) (c : Nat) (victim : Player),
        (t, c) ∈ voteTally r →
        (∀ y ∈ voteTally r, y.1 ≠ t → y.2 < c) →
        mapGet r.players t = some victim → victim.alive = true →
        resolveVotes r =
          ({ r with players := mapSet r.players t { victim with alive := false } },
           [Emit.toRoom r.code (Msg.systemMessage ("eject:" ++ victim.name))]))
  ∧ (∀ (r : Room) (t : String) (c : Nat),
        (t, c) ∈ voteTally r →
        (∀ y ∈ voteTally r, y.1 ≠ t → y.2 < c) →
        (∀ victim, mapGet r.players t = some victim → victim.alive = false) →
        resolveVotes r = (r, [])) := by
  refine ⟨?_, ?_, ?_, ?_⟩
  · intro r h
    simp [resolveVotes, h, scanT]
  · intro r t1 t2 c h1 h2 hne hmax
    have hti := voteTally_tie_scan r t1 t2 c h1 h2 hne hmax
    rcases hres : scanT (voteTally r) (0, none, false) with ⟨m, tg, ti⟩
    rw [hres] at hti
    have hti' : ti = true := hti
    cases tg with
    | none => simp [resolveVotes, hres]
    | some t => simp [resolveVotes, hres, hti']
  · intro r t c victim hmem hmax hvic halive
    have hres := voteTally_strict_max_scan r t c hmem hmax
    simp [resolveVotes, hres, hvic, halive]
  · intro r t c hmem hmax hdead
    have hres := voteTally_strict_max_scan r t c hmem hmax
    rcases hvic : mapGet r.players t with _ | victim
    · simp [resolveVotes, hres, hvic]
    · have hd := hdead victim hvic
      simp [resolveVotes, hres, hvic, hd]

/-- A VOTE room with four alive players: two vote for `v`, one votes for
`a`, `v` abstains — `v` holds the unique strictly-highest tally. -/
def voteRoom : Room :=
  { code := "R6", hostId := "h", phase := Phase.VOTE,
    players := [("h", { pHost with voteFor := some "v" }),
                ("a", { pDet with voteFor := some "v" }),
                ("b", { pDoc with voteFor := some "a" }),
                ("v", pVic)],
    assignments := [("h", Role.MURDERER), ("a", Role.DETECTIVE),
                    ("b", Role.DOCTOR), ("v", Role.CIVILIAN)],
    nightActions := NightActions.empty, timersEndsAt := none }

/-- C5 witness: in the concrete vote fixture the alive strict-max target
`v` is ejected and announced by name. -/
theorem resolveVotes_characterization_witness :
    resolveVotes voteRoom =
      ({ voteRoom with players := mapSet voteRoom.players "v" { pVic with alive := false } },
       [Emit.toRoom voteRoom.code (Msg.systemMessage ("eject:" ++ pVic.name))]) :=
  resolveVotes_characterization.2.2.1 voteRoom "v" 2 pVic (by decide) (by decide)
    (by decide) (by decide)

end MM
